import Mathlib

/-!
Verification of the image composition and layout engine of the
"album du jour" repository, embedded shallowly from `src/main.py`.

Text is modelled as `List Char` (Python `str`).  A font is modelled by its
measurement function: `draw.textbbox((0, 0), s, font=f)` is a pure function
of `s` and `f` in PIL, returning a bounding box `(x0, y0, x1, y1)`; we keep
it abstract as `Font : List Char → Bbox`.  Pixel coordinates are `Int`
(Python ints; `//` is modelled by `Int.fdiv`, Python's floor division).
-/

namespace AlbumDuJour

/-- Bounding box returned by `draw.textbbox((0,0), text, font)`:
`(x0, y0, x1, y1)`. -/
structure Bbox where
  x0 : Int
  y0 : Int
  x1 : Int
  y1 : Int
deriving DecidableEq, Repr

/-- A font handle, abstracted by its glyph-metrics function
(what `draw.textbbox((0,0), ·, font)` returns). -/
abbrev Font : Type := List Char → Bbox

/-- The truncation marker appended by `truncate_text` (main.py line 40-43):
the three-character string `'...'`. -/
def ellipsis : List Char := ['.', '.', '.']

/-- The `while` loop of `truncate_text` (main.py lines 40-43):
`while draw.textbbox((0,0), text + '...', font=font)[2] > max_width and len(text) > 0:
   text = text[:-1]`
followed by `return text + '...' if text else '...'`.
The loop drops one character per iteration, so it runs at most `len(text)`
times; `fuel` carries that bound to make the recursion structural (the
zero-fuel-with-nonempty-text branch is unreachable when `fuel ≥ length`). -/
def truncAux (font : Font) (maxW : Int) : Nat → List Char → List Char
  | fuel, t =>
      if maxW < (font (t ++ ellipsis)).x1 ∧ t ≠ [] then
        match fuel with
        | fuel' + 1 => truncAux font maxW fuel' t.dropLast
        | 0 => t ++ ellipsis
      else if t = [] then ellipsis else t ++ ellipsis

/-- `truncate_text(text, max_width, font, draw)` from main.py lines 35-43:
returns `text` unchanged if `draw.textbbox((0,0), text, font)[2] <= max_width`,
otherwise runs the shortening loop `truncAux`. -/
def truncate_text (font : Font) (maxW : Int) (t : List Char) : List Char :=
  if (font t).x1 ≤ maxW then t else truncAux font maxW t.length t

/-- Helper for `str.split()` (Python, no separator argument): accumulates the
current word in reverse and splits on whitespace runs, dropping empty pieces. -/
def splitWordsAux : List Char → List Char → List (List Char)
  | [], cur => if cur = [] then [] else [cur.reverse]
  | c :: rest, cur =>
      if c.isWhitespace then
        if cur = [] then splitWordsAux rest []
        else cur.reverse :: splitWordsAux rest []
      else splitWordsAux rest (c :: cur)

/-- `title.split()` from main.py line 229: split on whitespace runs,
never producing empty words. -/
def splitWords (s : List Char) : List (List Char) := splitWordsAux s []

/-- One iteration of the greedy title-wrap loop (main.py lines 232-240).
State is `(title_lines, current_line)`:
`test_line = current_line + " " + word if current_line else word`;
if its measured width fits, extend `current_line`; otherwise flush
`current_line` (when non-empty) and start a new line with `word`. -/
def wrapStep (font : Font) (maxW : Int) (st : List (List Char) × List Char)
    (word : List Char) : List (List Char) × List Char :=
  let test := if st.2 = [] then word else st.2 ++ [' '] ++ word
  if (font test).x1 ≤ maxW then (st.1, test)
  else (if st.2 = [] then st.1 else st.1 ++ [st.2], word)

/-- The full greedy wrap (main.py lines 228-243): fold the loop over the
words, then append the trailing `current_line` if non-empty. -/
def wrapTitle (font : Font) (maxW : Int) (words : List (List Char)) :
    List (List Char) :=
  let st := words.foldl (wrapStep font maxW) ([], [])
  if st.2 = [] then st.1 else st.1 ++ [st.2]

/-- Title layout (main.py lines 227-247): greedy-wrap the title, and if more
than 2 lines came out, keep the first two and truncate the second with
`truncate_text` to the title width budget. -/
def titleLines (font : Font) (maxW : Int) (title : List Char) :
    List (List Char) :=
  match wrapTitle font maxW (splitWords title) with
  | a :: b :: _ :: _ => [a, truncate_text font maxW b]
  | ls => ls

/-- Value of an ASCII decimal digit character (code points 48..57), `none`
for anything else. -/
def digitVal? (c : Char) : Option Nat :=
  if 48 ≤ c.toNat ∧ c.toNat ≤ 57 then some (c.toNat - 48) else none

/-- Decimal digits, most significant first; `fuel` bounds the digit count
(any `fuel ≥ n` suffices; the zero-fuel fallback is unreachable then). -/
def natToCharsF : Nat → Nat → List Char
  | fuel + 1, n =>
      if n < 10 then [Nat.digitChar n]
      else natToCharsF fuel (n / 10) ++ [Nat.digitChar (n % 10)]
  | 0, n => [Nat.digitChar n]

/-- Decimal representation of a natural number, as Python `str(n)` produces it
(no padding, no leading zeros). -/
def natToChars (n : Nat) : List Char := natToCharsF n n

/-- Python `f"{i:02d}"` (main.py line 291): zero-pad to two digits. -/
def twoDigits (i : Nat) : List Char :=
  if i < 10 then ['0', Nat.digitChar i] else natToChars i

/-- Gregorian leap-year test, as `datetime` uses it. -/
def isLeap (y : Nat) : Bool :=
  y % 4 = 0 && (y % 100 ≠ 0 || y % 400 = 0)

/-- Days in a month, as `datetime` validates the day field. -/
def daysInMonth (y m : Nat) : Nat :=
  if m = 2 then (if isLeap y then 29 else 28)
  else if m = 4 ∨ m = 6 ∨ m = 9 ∨ m = 11 then 30
  else 31

/-- Modelled from the spec and CPython `_strptime`: the `%m` field of
`datetime.strptime` matches the ordered regex `1[0-2]|0[1-9]|[1-9]`
(one or two digit characters, value 1..12), returning the value and the
unconsumed characters. -/
def parseMonth : List Char → Option (Nat × List Char)
  | c1 :: c2 :: rest =>
      match digitVal? c1, digitVal? c2 with
      | some d1, some d2 =>
          if d1 = 1 ∧ d2 ≤ 2 then some (10 + d2, rest)
          else if d1 = 0 ∧ 1 ≤ d2 then some (d2, rest)
          else if 1 ≤ d1 then some (d1, c2 :: rest)
          else none
      | some d1, none =>
          if 1 ≤ d1 then some (d1, c2 :: rest) else none
      | none, _ => none
  | [c1] =>
      match digitVal? c1 with
      | some d1 => if 1 ≤ d1 then some (d1, []) else none
      | none => none
  | [] => none

/-- Modelled from the spec and CPython `_strptime`: the `%d` field matches the
ordered regex `3[01]|[12][0-9]|0[1-9]|[1-9]`. -/
def parseDay : List Char → Option (Nat × List Char)
  | c1 :: c2 :: rest =>
      match digitVal? c1, digitVal? c2 with
      | some d1, some d2 =>
          if d1 = 3 ∧ d2 ≤ 1 then some (30 + d2, rest)
          else if d1 = 1 ∨ d1 = 2 then some (10 * d1 + d2, rest)
          else if d1 = 0 ∧ 1 ≤ d2 then some (d2, rest)
          else if 1 ≤ d1 then some (d1, c2 :: rest)
          else none
      | some d1, none =>
          if 1 ≤ d1 then some (d1, c2 :: rest) else none
      | none, _ => none
  | [c1] =>
      match digitVal? c1 with
      | some d1 => if 1 ≤ d1 then some (d1, []) else none
      | none => none
  | [] => none

/-- Modelled from the spec and CPython: `datetime.strptime(s, '%Y-%m-%d')`
(main.py line 49).  `%Y` matches exactly four digit characters; the match
must consume the whole string; month and day are range-checked by the
`datetime` constructor (`MINYEAR = 1`, day within the month).  Returns the
parsed year; any failure (regex mismatch, leftover characters, invalid
date) is `none`, matching the bare `except:` in `format_date`. -/
def parseYmd (s : List Char) : Option Nat :=
  match s with
  | a :: b :: c :: d :: '-' :: rest =>
      match digitVal? a, digitVal? b, digitVal? c, digitVal? d with
      | some da, some db, some dc, some dd =>
          let y := 1000 * da + 100 * db + 10 * dc + dd
          match parseMonth rest with
          | some (m, '-' :: rest2) =>
              match parseDay rest2 with
              | some (dy, []) =>
                  if 1 ≤ y ∧ dy ≤ daysInMonth y m then some y else none
              | _ => none
          | _ => none
      | _, _, _, _ => none
  | _ => none

/-- `format_date` from main.py lines 46-54: on a successful
`strptime(date_str, '%Y-%m-%d')` return `str(date.year)`; otherwise
(`except:`) return `date_str[:4]` when `date_str` is truthy with length ≥ 4,
else `date_str` itself. -/
def format_date (s : List Char) : List Char :=
  match parseYmd s with
  | some y => natToChars y
  | none => if s ≠ [] ∧ 4 ≤ s.length then s.take 4 else s

/-- An RGB color, channels 0..255 (PIL 'RGB' mode pixel). -/
structure RGB where
  r : Nat
  g : Nat
  b : Nat
deriving DecidableEq, Repr

/-- A decoded raster image in RGB mode: rows of pixels. -/
abbrev PixelImg : Type := List (List RGB)

def BLACK : RGB := ⟨0, 0, 0⟩
def WHITE : RGB := ⟨255, 255, 255⟩
def RED : RGB := ⟨255, 0, 0⟩
def DARK_GRAY : RGB := ⟨40, 40, 40⟩
def ORANGE : RGB := ⟨255, 165, 0⟩

/-- The 7 palette colors put into `palette_img` (main.py lines 76-84):
black, white, red, green, blue, yellow, orange. -/
def palette7 : List RGB :=
  [⟨0, 0, 0⟩, ⟨255, 255, 255⟩, ⟨255, 0, 0⟩, ⟨0, 255, 0⟩,
   ⟨0, 0, 255⟩, ⟨255, 255, 0⟩, ⟨255, 165, 0⟩]

/-- The full 256-entry palette: 7 colors completed with zeros
(`palette += [0] * (768 - len(palette))`, main.py line 85), i.e. 249
additional black entries. -/
def fullPalette : List RGB := palette7 ++ List.replicate 249 ⟨0, 0, 0⟩

/-- Squared Euclidean distance between colors, the metric PIL uses for
nearest-palette-color lookup. -/
def dist2 (a b : RGB) : Int :=
  ((a.r : Int) - b.r) * ((a.r : Int) - b.r) +
  ((a.g : Int) - b.g) * ((a.g : Int) - b.g) +
  ((a.b : Int) - b.b) * ((a.b : Int) - b.b)

/-- Nearest palette color by squared distance, first entry winning ties. -/
def nearest (pal : List RGB) (c : RGB) : RGB :=
  pal.foldl (fun best x => if dist2 x c < dist2 best c then x else best)
    (pal.headD ⟨0, 0, 0⟩)

/-- Signed per-channel quantization error. -/
structure ErrT where
  r : Int
  g : Int
  b : Int
deriving DecidableEq, Repr

def ErrT.zero : ErrT := ⟨0, 0, 0⟩

def ErrT.add (a b : ErrT) : ErrT := ⟨a.r + b.r, a.g + b.g, a.b + b.b⟩

/-- Error scaled by `k/16`, the Floyd-Steinberg weights. -/
def ErrT.scaleDiv (k : Int) (e : ErrT) : ErrT :=
  ⟨k * e.r / 16, k * e.g / 16, k * e.b / 16⟩

/-- Clamp a channel value to 0..255 after error addition. -/
def clampChan (x : Int) : Nat := (min 255 (max 0 x)).toNat

/-- Add an error triple to a pixel, clamping each channel to 0..255. -/
def clampAdd (p : RGB) (e : ErrT) : RGB :=
  ⟨clampChan ((p.r : Int) + e.r), clampChan ((p.g : Int) + e.g),
   clampChan ((p.b : Int) + e.b)⟩

/-- Modelled from the spec (4.2): one raster-scan row of Floyd-Steinberg
error diffusion, as performed by PIL's palette conversion with
`dither=Image.FLOYDSTEINBERG`.  `errAbove` holds the error diffused down
from the previous row, `carry` the 7/16 error from the left neighbor.
Each pixel is corrected, mapped to the nearest palette color, and its
residual error recorded. -/
def fsScan (pal : List RGB) : List RGB → List ErrT → ErrT → List (RGB × ErrT)
  | p :: ps, ea :: eas, carry =>
      let v := clampAdd p (ErrT.add ea carry)
      let out := nearest pal v
      let e : ErrT := ⟨(v.r : Int) - out.r, (v.g : Int) - out.g,
                       (v.b : Int) - out.b⟩
      (out, e) :: fsScan pal ps eas (ErrT.scaleDiv 7 e)
  | _, _, _ => []

/-- Modelled from the spec (4.2): errors a row diffuses to the row below,
with the standard weights — position `j` receives 3/16 of the error of
pixel `j+1` (below-left), 5/16 of pixel `j` (below), and 1/16 of pixel
`j-1` (below-right). -/
def belowErrs (es : List ErrT) : List ErrT :=
  (List.range es.length).map (fun j =>
    ErrT.add
      (ErrT.add (ErrT.scaleDiv 3 (es.getD (j + 1) ErrT.zero))
        (ErrT.scaleDiv 5 (es.getD j ErrT.zero)))
      (ErrT.scaleDiv 1 (if j = 0 then ErrT.zero else es.getD (j - 1) ErrT.zero)))

/-- Modelled from the spec (4.2): full-image Floyd-Steinberg dithering to a
palette, raster-scan order, threading the diffused error rows. -/
def fsDither (pal : List RGB) : List (List RGB) → List ErrT → List (List RGB)
  | [], _ => []
  | row :: rows, errRow =>
      let scanned := fsScan pal row errRow ErrT.zero
      scanned.map Prod.fst :: fsDither pal rows (belowErrs (scanned.map Prod.snd))

def imgHeight (img : PixelImg) : Nat := img.length

def imgWidth (img : PixelImg) : Nat := (img.headD []).length

/-- `Image.resize((size, size), Image.LANCZOS)` as PIL implements it: if the
image already has the requested size the image is returned unchanged
(PIL's fast path `if self.size == size ... return self.copy()`); otherwise
the Lanczos resampling is delegated to the abstract `resample` oracle
(real-number convolution, outside the embedding). -/
def resizeModel (resample : PixelImg → Nat → PixelImg) (img : PixelImg)
    (size : Nat) : PixelImg :=
  if imgWidth img = size ∧ imgHeight img = size then img else resample img size

/-- `process_cover_for_eink` from main.py lines 68-92: resize to
`size × size`, convert to RGB (identity on our RGB pixel model), quantize
against the 7-color palette with Floyd-Steinberg dithering, convert back
to RGB (palette lookup, already reflected in emitting palette colors). -/
def process_cover_for_eink (resample : PixelImg → Nat → PixelImg)
    (cover : PixelImg) (size : Nat := 300) : PixelImg :=
  let cover := resizeModel resample cover size
  fsDither fullPalette cover (List.replicate (imgWidth cover) ErrT.zero)

/-- A track entry as the composer accepts it (main.py lines 283-289): either
a plain string, or a dict with a `name` and an optional `in_playlist` flag
(the spec's `highlighted`, default `False`). -/
inductive TrackData where
  | plain (name : List Char)
  | dict (name : List Char) (in_playlist : Bool)
deriving DecidableEq, Repr

/-- The `name` the loop extracts: `track_data['name']` for a dict, the string
itself otherwise. -/
def TrackData.name : TrackData → List Char
  | .plain n => n
  | .dict n _ => n

/-- The `in_playlist` flag the loop extracts:
`track_data.get('in_playlist', False)` for a dict, `False` otherwise. -/
def TrackData.inPlaylist : TrackData → Bool
  | .plain _ => false
  | .dict _ b => b

/-- The `album_data` dict consumed by `create_album_display`.  `Option`
models key absence (`dict.get`); string values are kept verbatim. -/
structure AlbumData where
  title : Option (List Char)
  artist : Option (List Char)
  release_date : Option (List Char)
  cover_url : Option (List Char)
  tracks : List TrackData
  spotify_url : Option (List Char)
deriving DecidableEq, Repr

/-- A drawing primitive recorded on the canvas, one per PIL call made by
`create_album_display` (`draw.rectangle` filled / outlined, `draw.text`,
`draw.line`, `img.paste`).  Text carries the font request `(size, bold)`
passed to `load_font`. -/
inductive DrawOp where
  | fillRect (x0 y0 x1 y1 : Int) (c : RGB)
  | outlineRect (x0 y0 x1 y1 : Int) (c : RGB) (w : Nat)
  | line (x0 y0 x1 y1 : Int) (c : RGB) (w : Nat)
  | text (x y : Int) (s : List Char) (c : RGB) (size : Nat) (bold : Bool)
  | paste (x y : Int) (img : PixelImg)
deriving DecidableEq, Repr

/-- The output raster: `Image.new('RGB', (WIDTH, HEIGHT), WHITE)` plus the
ordered drawing operations applied to it.  PIL draw/paste calls never
change an image's size. -/
structure Canvas where
  width : Nat
  height : Nat
  ops : List DrawOp
deriving Repr

/-- External resources the composer consumes, kept abstract:
glyph metrics per `load_font(size, bold)` request, rasterization of text
onto a pixel image (`ImageDraw.text`, used only for the cover placeholder
label), the QR code library, PIL's Lanczos resampler, and
`download_image` (network fetch + decode; `none` models any failure). -/
structure Resources where
  fonts : Nat → Bool → Font
  rasterize : PixelImg → Int → Int → List Char → RGB → Nat → Bool → PixelImg
  qrGen : List Char → PixelImg
  resample : PixelImg → Nat → PixelImg
  fetch : List Char → Option PixelImg

/-- Geometry constants from main.py lines 20-23. -/
def WIDTH : Int := 800
def HEIGHT : Int := 480
def COVER_WIDTH : Int := 360
def INFO_WIDTH : Int := 440

/-- `max_title_width = INFO_WIDTH - 70 - 100` (main.py line 227). -/
def maxTitleWidth : Int := INFO_WIDTH - 70 - 100

/-- `max_track_width = max_title_width - 35` (main.py line 281). -/
def maxTrackWidth : Int := maxTitleWidth - 35

/-- `x_start = COVER_WIDTH + 35` (main.py line 184). -/
def xStart : Int := COVER_WIDTH + 35

def albumDefaultTitle : List Char := "Album".toList
def albumDefaultArtist : List Char := "Artiste".toList
def badgeLabel : List Char := "ALBUM DU JOUR".toList
def musicSymbol : List Char := ['♪']
def sectionLabel : List Char := "MEILLEURS TITRES DE L\x27ALBUM :".toList
def placeholderLabel : List Char := "COVER\nIMAGE".toList

/-- The cover image actually obtained (main.py lines 140-146): `None` unless
`cover_url` is present and truthy (non-empty) and the download succeeds. -/
def coverFetched (fetch : List Char → Option PixelImg) (album : AlbumData) :
    Option PixelImg :=
  match album.cover_url with
  | some u => if u = [] then none else fetch u
  | none => none

/-- The placeholder cover (main.py lines 148-163): a solid black 300×300
image with the label text drawn centered in white, 14pt bold —
`text_width`/`text_height` from `textbbox`, position by floor division. -/
def placeholderCover (fonts : Nat → Bool → Font)
    (rasterize : PixelImg → Int → Int → List Char → RGB → Nat → Bool → PixelImg) :
    PixelImg :=
  let fp := fonts 14 true
  let bb := fp placeholderLabel
  let tw := bb.x1 - bb.x0
  let th := bb.y1 - bb.y0
  rasterize (List.replicate 300 (List.replicate 300 BLACK))
    ((300 - tw).fdiv 2) ((300 - th).fdiv 2) placeholderLabel WHITE 14 true

/-- The title draw ops (main.py lines 249-251): each line at `x_start`, with
`y_pos` advancing by 44 per line, black, 38pt bold. -/
def titleOps (x y : Int) (lines : List (List Char)) : List DrawOp :=
  lines.enum.map (fun p => DrawOp.text x (y + 44 * (p.1 : Int)) p.2 BLACK 38 true)

/-- `badge_height = bbox_text[3] - bbox_text[1] + 14` (main.py line 199). -/
def badgeHeightOf (fonts : Nat → Bool → Font) : Int :=
  let tbb := fonts 11 true badgeLabel
  tbb.y1 - tbb.y0 + 14

/-- The wrapped title of an album (main.py lines 224-247):
font 38 bold, budget `max_title_width`, default title `'Album'`. -/
def titleLinesOf (fonts : Nat → Bool → Font) (album : AlbumData) :
    List (List Char) :=
  titleLines (fonts 38 true) maxTitleWidth (album.title.getD albumDefaultTitle)

/-- The `y_pos` at which the first track row is drawn, accumulated exactly as
main.py does: 40 (start) + badge height + 22, + 44 per title line, + 44
(artist), + 22 (separator), + 30 (section label). -/
def trackStartY (fonts : Nat → Bool → Font) (album : AlbumData) : Int :=
  40 + badgeHeightOf fonts + 22 + 44 * ((titleLinesOf fonts album).length : Int)
    + 44 + 22 + 30

/-- The track loop (main.py lines 283-306).  For each track: extract name and
`in_playlist`; draw the 2-digit 1-based index (14pt bold black); reserve 25
pixels of the row budget when `in_playlist`; draw the truncated name at
`x_start + 34` (14pt regular black); and when `in_playlist` draw an orange
`*` (18pt bold) at `textbbox((track_x, y_pos), truncated)[2] + 8`, i.e. at
the measured end of the fitted text, at `y_pos - 2`.  `y_pos` advances by
25 per row. -/
def trackRowOps (fontName : Font) (xs maxTW : Int) :
    Nat → Int → List TrackData → List DrawOp
  | _, _, [] => []
  | idx, y, td :: rest =>
      let availW := if td.inPlaylist then maxTW - 25 else maxTW
      let fitted := truncate_text fontName availW td.name
      ([DrawOp.text xs y (twoDigits idx) BLACK 14 true,
        DrawOp.text (xs + 34) y fitted BLACK 14 false] ++
       (if td.inPlaylist then
          [DrawOp.text (xs + 34 + (fontName fitted).x1 + 8) (y - 2) ['*']
             ORANGE 18 true]
        else [])) ++
      trackRowOps fontName xs maxTW (idx + 1) (y + 25) rest

/-- Everything drawn before the track rows (main.py lines 133-273), in source
order: dark-gray left background; cover (downloaded-and-quantized, or the
placeholder) pasted at (30, 90) with a 4px white outline; the formatted
release date fitted to 300px and centered under the cover at y 410; the red
badge with music glyph and label; the wrapped title lines; the fitted
artist; the separator line; the section label. -/
def headerOps (R : Resources) (album : AlbumData) : List DrawOp :=
  let cover : PixelImg :=
    match coverFetched R.fetch album with
    | some c => process_cover_for_eink R.resample c 300
    | none => placeholderCover R.fonts R.rasterize
  let font_date := R.fonts 14 true
  let date_text := truncate_text font_date 300
    (format_date (album.release_date.getD []))
  let dbb := font_date date_text
  let date_width := dbb.x1 - dbb.x0
  let mbb := R.fonts 16 true musicSymbol
  let music_width := mbb.x1 - mbb.x0
  let tbb := R.fonts 11 true badgeLabel
  let text_width := tbb.x1 - tbb.x0
  let badge_height := tbb.y1 - tbb.y0 + 14
  let total_badge_width := music_width + text_width + 40
  let yTitle := 40 + badge_height + 22
  let lines := titleLinesOf R.fonts album
  let yArtist := yTitle + 44 * (lines.length : Int)
  let artist := truncate_text (R.fonts 24 false) maxTitleWidth
    (album.artist.getD albumDefaultArtist)
  let ySep := yArtist + 44
  let ySection := ySep + 22
  [DrawOp.fillRect 0 0 COVER_WIDTH HEIGHT DARK_GRAY,
   DrawOp.paste 30 90 cover,
   DrawOp.outlineRect 30 90 330 390 WHITE 4,
   DrawOp.text ((COVER_WIDTH - date_width).fdiv 2) 410 date_text WHITE 14 true,
   DrawOp.fillRect xStart 40 (xStart + total_badge_width) (40 + badge_height) RED,
   DrawOp.text (xStart + 12) (40 + 3) musicSymbol WHITE 16 true,
   DrawOp.text (xStart + 12 + music_width + 8) (40 + 7) badgeLabel WHITE 11 true]
  ++ titleOps xStart yTitle lines
  ++ [DrawOp.text xStart yArtist artist BLACK 24 false,
      DrawOp.line xStart ySep (xStart + maxTitleWidth) ySep BLACK 3,
      DrawOp.text xStart ySection sectionLabel BLACK 12 true]

/-- The QR code ops (main.py lines 308-314): when `spotify_url` is present
and truthy, paste the generated 100×100 code at
`(WIDTH - 135, HEIGHT - 140)`; otherwise nothing. -/
def qrOpsOf (qrGen : List Char → PixelImg) (album : AlbumData) : List DrawOp :=
  match album.spotify_url with
  | some u => if u = [] then []
      else [DrawOp.paste (WIDTH - 135) (HEIGHT - 140) (qrGen u)]
  | none => []

/-- All drawing operations of `create_album_display`, in source order:
header, then the rows for `tracks[:5]` starting at index 1, then the
optional QR code. -/
def canvasOps (R : Resources) (album : AlbumData) : List DrawOp :=
  headerOps R album ++
  trackRowOps (R.fonts 14 false) xStart maxTrackWidth 1
    (trackStartY R.fonts album) (album.tracks.take 5) ++
  qrOpsOf R.qrGen album

/-- `create_album_display(album_data)` from main.py lines 129-317: an
800×480 RGB canvas (white background) with the recorded draw operations. -/
def create_album_display (R : Resources) (album : AlbumData) : Canvas :=
  ⟨800, 480, canvasOps R album⟩

/-- Recognizes the highlight marker glyph ops: the only orange text the
composer ever draws is the `*` of a highlighted track row. -/
def isMarkerOp : DrawOp → Bool
  | .text _ _ _ c _ _ => decide (c = ORANGE)
  | _ => false

/-- Recognizes the track-number ops: the only 14pt-bold black text the
composer ever draws are the 2-digit row indices. -/
def isTrackNumOp : DrawOp → Bool
  | .text _ _ _ c 14 true => decide (c = BLACK)
  | _ => false

/-- A concrete variable-free font for witnesses: every character 1px wide. -/
def cFontLen : Font := fun s => ⟨0, 0, (s.length : Int), 0⟩

/-- A concrete font for witnesses and counterexamples: every character 10px
wide, zero-height box. -/
def cFontTen : Font := fun s => ⟨0, 0, 10 * (s.length : Int), 0⟩

/-- Concrete resources for witnesses and counterexamples: the 10px font for
every request, trivial rasterizer/QR/resampler, failing downloader. -/
def cRes : Resources where
  fonts := fun _ _ => cFontTen
  rasterize := fun _ _ _ _ _ _ _ => []
  qrGen := fun _ => []
  resample := fun img _ => img
  fetch := fun _ => none

/-- Album whose first two tracks are both marked `in_playlist`. -/
def albumTwoHighlighted : AlbumData :=
  ⟨some ['T'], some ['A'], none, none,
   [TrackData.dict ['a'] true, TrackData.dict ['b'] true], none⟩

/-- Album with a single `in_playlist` track. -/
def albumOneHighlighted : AlbumData :=
  ⟨some ['T'], some ['A'], none, none, [TrackData.dict ['a'] true], none⟩

/-- Album whose only track entry is a bare string. -/
def albumPlainTrack : AlbumData :=
  ⟨some ['T'], some ['A'], none, none, [TrackData.plain ['x']], none⟩

/-- Album with every optional field absent and no tracks. -/
def albumEmpty : AlbumData := ⟨none, none, none, none, [], none⟩

/-- Album whose release date is an ISO date with a year below 1000. -/
def albumOldDate : AlbumData :=
  ⟨some ['T'], some ['A'], some ("0071-01-01".toList), none, [], none⟩

/-- A 60-character single word (end-to-end scenario B of the spec). -/
def longWord : List Char := List.replicate 60 'a'

/-- A solid-black 300×300 image, already at target size and 7-color. -/
def imgBlack300 : PixelImg := List.replicate 300 (List.replicate 300 ⟨0, 0, 0⟩)

/-! ### Lemmas about the text fitter -/

/-- The shortening loop always returns some prefix of its input followed by
the `'...'` marker. -/
theorem truncAux_exists_take (font : Font) (maxW : Int) :
    ∀ (fuel : Nat) (t : List Char),
      ∃ n, truncAux font maxW fuel t = t.take n ++ ellipsis := by
  intro fuel
  induction fuel with
  | zero =>
      intro t
      rw [truncAux]
      split
      · exact ⟨t.length, by rw [List.take_length]⟩
      · split
        · next h2 => exact ⟨0, by simp [h2]⟩
        · exact ⟨t.length, by rw [List.take_length]⟩
  | succ k ih =>
      intro t
      rw [truncAux]
      split
      · obtain ⟨n, hn⟩ := ih t.dropLast
        refine ⟨min n (t.length - 1), ?_⟩
        rw [hn, List.dropLast_eq_take, List.take_take]
      · split
        · next h2 => exact ⟨0, by simp [h2]⟩
        · exact ⟨t.length, by rw [List.take_length]⟩

/-- When the budget is at least the marker width and the fuel covers the
text length, the shortening loop returns a string whose measured width
fits the budget. -/
theorem truncAux_width_le (font : Font) (maxW : Int)
    (hell : (font ellipsis).x1 ≤ maxW) :
    ∀ (fuel : Nat) (t : List Char), t.length ≤ fuel →
      (font (truncAux font maxW fuel t)).x1 ≤ maxW := by
  intro fuel
  induction fuel with
  | zero =>
      intro t ht
      have h0 : t = [] := List.length_eq_zero.mp (Nat.le_zero.mp ht)
      subst h0
      rw [truncAux]
      simp only [ne_eq, not_true_eq_false, and_false, if_false, if_pos rfl]
      exact hell
  | succ k ih =>
      intro t ht
      rw [truncAux]
      split
      · next h =>
          have hne : t ≠ [] := h.2
          have hpos : 0 < t.length := List.length_pos.mpr hne
          have hlen : t.dropLast.length ≤ k := by
            simp only [List.length_dropLast]; omega
          exact ih t.dropLast hlen
      · next h =>
          split
          · exact hell
          · next h2 =>
              have : ¬ (maxW < (font (t ++ ellipsis)).x1) := fun hw => h ⟨hw, h2⟩
              omega

/-- C2: for every text, font, and budget at least the rendered width of the
marker, the fitted string's rendered width is within the budget.
(`truncate_text`, main.py lines 35-43; rendered width is the `textbbox`
right coordinate the code itself measures with.) -/
theorem truncate_text_width_le (font : Font) (maxW : Int) (t : List Char)
    (hell : (font ellipsis).x1 ≤ maxW) :
    (font (truncate_text font maxW t)).x1 ≤ maxW := by
  rw [truncate_text]
  split
  · next h => exact h
  · exact truncAux_width_le font maxW hell t.length t le_rfl

/-- Witness for C2 at a concrete font (1px per character), budget 5 and the
8-character text `abcdefgh`. -/
theorem truncate_text_width_le_witness :
    (cFontLen ellipsis).x1 ≤ 5 ∧
      (cFontLen (truncate_text cFontLen 5 ("abcdefgh".toList))).x1 ≤ 5 :=
  ⟨by decide, truncate_text_width_le cFontLen 5 ("abcdefgh".toList) (by decide)⟩

/-- C10: `truncate_text` is total, and its result is either the input
unchanged or a (possibly empty) prefix of the input followed by the
`'...'` marker; nothing else. -/
theorem truncate_text_shape (font : Font) (maxW : Int) (t : List Char) :
    truncate_text font maxW t = t ∨
      ∃ n, truncate_text font maxW t = t.take n ++ ellipsis := by
  rw [truncate_text]
  split
  · exact Or.inl rfl
  · exact Or.inr (truncAux_exists_take font maxW t.length t)

/-! ### Lemmas about the title wrap -/

/-- `splitWordsAux` never produces an empty word. -/
theorem splitWordsAux_ne_nil :
    ∀ (s cur : List Char), [] ∉ splitWordsAux s cur := by
  intro s
  induction s with
  | nil =>
      intro cur
      rw [splitWordsAux]
      split
      · simp
      · next hcur =>
          simp only [List.mem_singleton]
          intro hrev
          exact hcur (List.reverse_eq_nil_iff.mp hrev.symm)
  | cons c rest ih =>
      intro cur
      rw [splitWordsAux]
      split
      · split
        · exact ih []
        · next hcur =>
            intro hmem
            rcases List.mem_cons.mp hmem with hrev | hmem2
            · exact hcur (List.reverse_eq_nil_iff.mp hrev.symm)
            · exact ih [] hmem2
      · exact ih (c :: cur)

/-- `title.split()` never produces an empty word. -/
theorem splitWords_ne_nil (s : List Char) : [] ∉ splitWords s :=
  splitWordsAux_ne_nil s []

/-- C3: the title layout yields at most 2 lines for every input, and when
the greedy wrap produced more than 2 lines the output is exactly the first
wrapped line followed by the second wrapped line fitted (with the `'...'`
marker) to the title width budget. -/
theorem titleLines_at_most_two (font : Font) (maxW : Int) (title : List Char) :
    (titleLines font maxW title).length ≤ 2 ∧
      (2 < (wrapTitle font maxW (splitWords title)).length →
        titleLines font maxW title =
          [(wrapTitle font maxW (splitWords title)).headD [],
           truncate_text font maxW
             ((wrapTitle font maxW (splitWords title)).getD 1 [])]) := by
  unfold titleLines
  rcases hw : wrapTitle font maxW (splitWords title) with _ | ⟨a, _ | ⟨b, _ | ⟨c, rest⟩⟩⟩
  · exact ⟨by simp, by simp⟩
  · exact ⟨by simp, by simp⟩
  · exact ⟨by simp, by simp⟩
  · exact ⟨by simp, fun _ => by simp⟩

/-- Witness for C3: a font where each character is 10px, budget 35, title of
four 3-character words; the greedy wrap makes 4 lines and the layout keeps
the first two. -/
theorem titleLines_at_most_two_witness :
    (titleLines cFontTen 35 ("aaa bbb ccc ddd".toList)).length ≤ 2 ∧
      titleLines cFontTen 35 ("aaa bbb ccc ddd".toList) =
        [(wrapTitle cFontTen 35 (splitWords ("aaa bbb ccc ddd".toList))).headD [],
         truncate_text cFontTen 35
           ((wrapTitle cFontTen 35 (splitWords ("aaa bbb ccc ddd".toList))).getD 1 [])] :=
  ⟨(titleLines_at_most_two cFontTen 35 ("aaa bbb ccc ddd".toList)).1,
   (titleLines_at_most_two cFontTen 35 ("aaa bbb ccc ddd".toList)).2 (by decide)⟩

/-- C8 counterexample: for the 10px-per-character font, budget 270 and a
title that is a single 60-character word, the title is laid out as the one
unmodified word — wider than the budget and not ellipsis-truncated — so
the claim "truncated with an ellipsis to the budget" is false. -/
theorem titleLines_long_word_counterexample :
    titleLines cFontTen 270 longWord = [longWord] ∧
      270 < (cFontTen longWord).x1 ∧
      titleLines cFontTen 270 longWord ≠
        [truncate_text cFontTen 270 longWord] := by decide

/-- C8 as amended: a title consisting of a single word (no whitespace) is
always laid out as exactly one line holding that word unchanged — never
split mid-word, never wrapped, and (even when wider than the budget) never
truncated. -/
theorem titleLines_single_word (font : Font) (maxW : Int) (title : List Char)
    (w : List Char) (hw : splitWords title = [w]) :
    titleLines font maxW title = [w] := by
  have hne : w ≠ [] := by
    intro h0
    exact splitWords_ne_nil title (h0 ▸ hw ▸ List.mem_singleton.mpr rfl)
  have hstep : wrapStep font maxW ([], []) w = ([], w) := by
    unfold wrapStep
    simp
  have hwrap : wrapTitle font maxW [w] = [w] := by
    unfold wrapTitle
    rw [List.foldl_cons, List.foldl_nil, hstep]
    simp [hne]
  unfold titleLines
  rw [hw, hwrap]

/-- Witness for C8's amended statement at a concrete input. -/
theorem titleLines_single_word_witness :
    titleLines cFontTen 270 longWord = [longWord] :=
  titleLines_single_word cFontTen 270 longWord longWord (by decide)

/-! ### Canvas size -/

/-- C1: the composed canvas is exactly 800×480 for every album record and
every resource bundle — in particular for empty track lists, missing
covers and empty titles (`Image.new('RGB', (WIDTH, HEIGHT))`, main.py
line 133; no later call changes the size). -/
theorem create_album_display_size (R : Resources) (album : AlbumData) :
    (create_album_display R album).width = 800 ∧
      (create_album_display R album).height = 480 :=
  ⟨rfl, rfl⟩

/-! ### The release-year text -/

/-- Reading a digit back: `Nat.digitChar` inverts `digitVal?`, and digit
values are at most 9. -/
theorem digitChar_digitVal (c : Char) (k : Nat) (h : digitVal? c = some k) :
    Nat.digitChar k = c ∧ k ≤ 9 := by
  unfold digitVal? at h
  split at h
  · next hc =>
      injection h with hk
      have hk9 : k ≤ 9 := by omega
      refine ⟨?_, hk9⟩
      have hcn : c.toNat = k + 48 := by omega
      have hofn := Char.ofNat_toNat c
      rw [hcn] at hofn
      rw [← hofn]
      interval_cases k <;> rfl
  · exact absurd h (by simp)

/-- Small numbers print as a single digit, for any fuel. -/
theorem natToCharsF_lt_ten (fuel n : Nat) (h : n < 10) :
    natToCharsF fuel n = [Nat.digitChar n] := by
  cases fuel <;> simp [natToCharsF, h]

/-- The fuel does not matter once it covers the number. -/
theorem natToCharsF_congr :
    ∀ (fuel fuel' n : Nat), n ≤ fuel → n ≤ fuel' →
      natToCharsF fuel n = natToCharsF fuel' n := by
  intro fuel
  induction fuel with
  | zero =>
      intro fuel' n h h'
      have h0 : n = 0 := Nat.le_zero.mp h
      subst h0
      rw [natToCharsF_lt_ten _ _ (by omega), natToCharsF_lt_ten _ _ (by omega)]
  | succ k ih =>
      intro fuel' n h h'
      by_cases hn : n < 10
      · rw [natToCharsF_lt_ten _ _ hn, natToCharsF_lt_ten _ _ hn]
      · obtain ⟨m, rfl⟩ : ∃ m, fuel' = m + 1 := ⟨fuel' - 1, by omega⟩
        simp only [natToCharsF, if_neg hn]
        rw [ih m (n / 10) (by omega) (by omega)]

/-- One division step of the decimal printer. -/
theorem natToChars_step (n : Nat) (h : 10 ≤ n) :
    natToChars n = natToChars (n / 10) ++ [Nat.digitChar (n % 10)] := by
  unfold natToChars
  obtain ⟨m, rfl⟩ : ∃ m, n = m + 1 := ⟨n - 1, by omega⟩
  simp only [natToCharsF, if_neg (by omega : ¬ m + 1 < 10)]
  rw [natToCharsF_congr m ((m + 1) / 10) ((m + 1) / 10) (by omega) le_rfl]

/-- A four-digit number prints as its four decimal digit characters. -/
theorem natToChars_four (y : Nat) (h1 : 1000 ≤ y) (h2 : y < 10000) :
    natToChars y = [Nat.digitChar (y / 1000), Nat.digitChar (y / 100 % 10),
      Nat.digitChar (y / 10 % 10), Nat.digitChar (y % 10)] := by
  have d1 : y / 10 / 10 = y / 100 := by
    rw [Nat.div_div_eq_div_mul]
  have d2 : y / 100 / 10 = y / 1000 := by
    rw [Nat.div_div_eq_div_mul]
  rw [natToChars_step y (by omega), natToChars_step (y / 10) (by omega),
    natToChars_step (y / 10 / 10) (by rw [d1]; omega), d1, d2]
  rw [show natToChars (y / 1000) = [Nat.digitChar (y / 1000)] from
    natToCharsF_lt_ten _ _ (by omega)]
  simp

/-- C5 as amended: when `release_date` parses as `%Y-%m-%d` the year text is
`str(year)` — which equals the first 4 characters exactly when the year is
at least 1000 (no leading zero to drop); when parsing fails the year text
is the first 4 characters if the string has at least 4, else the raw
string. -/
theorem format_date_spec (s : List Char) :
    (∀ y, parseYmd s = some y →
        format_date s = natToChars y ∧ (1000 ≤ y → format_date s = s.take 4)) ∧
      (parseYmd s = none →
        format_date s = if 4 ≤ s.length then s.take 4 else s) := by
  constructor
  · intro y hy
    have hfd : format_date s = natToChars y := by
      unfold format_date
      rw [hy]
    refine ⟨hfd, fun hy1000 => ?_⟩
    unfold parseYmd at hy
    split at hy
    · next a b c d rest =>
        split at hy
        · next da db dc dd hda hdb hdc hdd =>
            split at hy
            · next m rest2 hpm =>
                split at hy
                · next dy hpd =>
                    simp only [] at hy
                    split at hy
                    · next hcond =>
                        injection hy with hy2
                        obtain ⟨ha9, hda9⟩ := digitChar_digitVal a da hda
                        obtain ⟨hb9, hdb9⟩ := digitChar_digitVal b db hdb
                        obtain ⟨hc9, hdc9⟩ := digitChar_digitVal c dc hdc
                        obtain ⟨hd9, hdd9⟩ := digitChar_digitVal d dd hdd
                        subst hy2
                        rw [hfd, natToChars_four _ hy1000 (by omega)]
                        have e1 : (1000 * da + 100 * db + 10 * dc + dd) / 1000 = da := by omega
                        have e2 : (1000 * da + 100 * db + 10 * dc + dd) / 100 % 10 = db := by omega
                        have e3 : (1000 * da + 100 * db + 10 * dc + dd) / 10 % 10 = dc := by omega
                        have e4 : (1000 * da + 100 * db + 10 * dc + dd) % 10 = dd := by omega
                        rw [e1, e2, e3, e4, ha9, hb9, hc9, hd9]
                        simp
                    · exact absurd hy (by simp)
                · exact absurd hy (by simp)
            · exact absurd hy (by simp)
        · exact absurd hy (by simp)
    · exact absurd hy (by simp)
  · intro hn
    unfold format_date
    rw [hn]
    by_cases h4 : 4 ≤ s.length
    · have hne : s ≠ [] := by
        intro h0
        rw [h0] at h4
        simp at h4
      simp [h4, hne]
    · simp [h4]

/-- Witness for C5's amended statement: `'1969-09-26'` parses and its year
text is both `str(1969)` and the first 4 characters. -/
theorem format_date_spec_witness :
    format_date ("1969-09-26".toList) = natToChars 1969 ∧
      format_date ("1969-09-26".toList) = ("1969-09-26".toList).take 4 :=
  ⟨((format_date_spec ("1969-09-26".toList)).1 1969 (by decide)).1,
   ((format_date_spec ("1969-09-26".toList)).1 1969 (by decide)).2 (by decide)⟩

/-- C5 counterexample: `'0071-01-01'` parses as an ISO date (year 71), but
the rendered year text is `'71'` (`str(date.year)` drops leading zeros),
not the first 4 characters `'0071'`; the composed canvas carries the
two-character text, not the four-character one. -/
theorem format_date_counterexample :
    parseYmd ("0071-01-01".toList) = some 71 ∧
      format_date ("0071-01-01".toList) = ['7', '1'] ∧
      ("0071-01-01".toList).take 4 = ['0', '0', '7', '1'] ∧
      format_date ("0071-01-01".toList) ≠ ("0071-01-01".toList).take 4 ∧
      DrawOp.text 170 410 ['7', '1'] WHITE 14 true ∈
        (create_album_display cRes albumOldDate).ops ∧
      DrawOp.text 160 410 ['0', '0', '7', '1'] WHITE 14 true ∉
        (create_album_display cRes albumOldDate).ops := by
  decide

/-! ### The palette quantizer -/

theorem dist2_self (c : RGB) : dist2 c c = 0 := by
  simp [dist2]

theorem dist2_nonneg (a b : RGB) : 0 ≤ dist2 a b :=
  add_nonneg (add_nonneg (mul_self_nonneg _) (mul_self_nonneg _))
    (mul_self_nonneg _)

theorem dist2_eq_zero (a b : RGB) (h : dist2 a b = 0) : a = b := by
  obtain ⟨ar, ag, ab2⟩ := a
  obtain ⟨br2, bg, bb2⟩ := b
  unfold dist2 at h
  simp only at h
  have hr := mul_self_nonneg ((ar : Int) - br2)
  have hg := mul_self_nonneg ((ag : Int) - bg)
  have hb := mul_self_nonneg ((ab2 : Int) - bb2)
  have h1 : ((ar : Int) - br2) * ((ar : Int) - br2) = 0 := by nlinarith
  have h2 : ((ag : Int) - bg) * ((ag : Int) - bg) = 0 := by nlinarith
  have h3 : ((ab2 : Int) - bb2) * ((ab2 : Int) - bb2) = 0 := by nlinarith
  have e1 := mul_self_eq_zero.mp h1
  have e2 := mul_self_eq_zero.mp h2
  have e3 := mul_self_eq_zero.mp h3
  simp only [RGB.mk.injEq]
  refine ⟨?_, ?_, ?_⟩ <;> omega

theorem foldl_nearest_zero (c : RGB) : ∀ (pal : List RGB) (init : RGB),
    (dist2 init c = 0 ∨ c ∈ pal) →
    dist2 (pal.foldl
      (fun best x => if dist2 x c < dist2 best c then x else best) init) c = 0 := by
  intro pal
  induction pal with
  | nil =>
      intro init h
      rcases h with h | h
      · exact h
      · simp at h
  | cons x xs ih =>
      intro init h
      rw [List.foldl_cons]
      rcases h with h0 | hmem
      · have hnl : ¬ (dist2 x c < dist2 init c) := by
          rw [h0]
          exact not_lt.mpr (dist2_nonneg x c)
        rw [if_neg hnl]
        exact ih init (Or.inl h0)
      · rcases List.mem_cons.mp hmem with hcx | hxs
        · subst hcx
          by_cases hlt : dist2 c c < dist2 init c
          · rw [if_pos hlt]
            exact ih c (Or.inl (dist2_self c))
          · rw [if_neg hlt]
            have h0 : dist2 init c = 0 := by
              have hle := not_lt.mp hlt
              have := dist2_self c
              have := dist2_nonneg init c
              omega
            exact ih init (Or.inl h0)
        · split
          · exact ih x (Or.inr hxs)
          · exact ih init (Or.inr hxs)

theorem nearest_mem_self (pal : List RGB) (c : RGB) (h : c ∈ pal) :
    nearest pal c = c :=
  dist2_eq_zero _ _ (foldl_nearest_zero c pal (pal.headD ⟨0, 0, 0⟩) (Or.inr h))

theorem clampAdd_zero (p : RGB) (hp : p ∈ palette7) : clampAdd p ErrT.zero = p := by
  fin_cases hp <;> decide

theorem fsScan_id (row : List RGB) : ∀ (errs : List ErrT),
    (∀ p ∈ row, p ∈ palette7) → (∀ e ∈ errs, e = ErrT.zero) →
    row.length = errs.length →
    fsScan fullPalette row errs ErrT.zero =
      row.map (fun p => (p, ErrT.zero)) := by
  induction row with
  | nil => intro errs _ _ _; rfl
  | cons p ps ih =>
      intro errs hp he hl
      cases errs with
      | nil => simp at hl
      | cons e es =>
          have hez : e = ErrT.zero := he e (List.mem_cons_self e es)
          subst hez
          have hmem : p ∈ palette7 := hp p (List.mem_cons_self p ps)
          have hca : clampAdd p (ErrT.add ErrT.zero ErrT.zero) = p :=
            clampAdd_zero p hmem
          have hnp : nearest fullPalette p = p :=
            nearest_mem_self fullPalette p (List.mem_append_left _ hmem)
          rw [fsScan]
          simp only [hca, hnp]
          have herr : (⟨(p.r : Int) - p.r, (p.g : Int) - p.g,
              (p.b : Int) - p.b⟩ : ErrT) = ErrT.zero := by
            simp [ErrT.zero]
          rw [herr]
          have hcarry : ErrT.scaleDiv 7 ErrT.zero = ErrT.zero := by
            simp [ErrT.scaleDiv, ErrT.zero]
          rw [hcarry, ih es (fun q hq => hp q (List.mem_cons_of_mem p hq))
            (fun e2 he2 => he e2 (List.mem_cons_of_mem _ he2)) (by simpa using hl)]
          simp

theorem belowErrs_zero (es : List ErrT) (h : ∀ e ∈ es, e = ErrT.zero) :
    ∀ e2 ∈ belowErrs es, e2 = ErrT.zero := by
  intro e2 he2
  unfold belowErrs at he2
  obtain ⟨j, hj, rfl⟩ := List.mem_map.mp he2
  have hz : ∀ i, es.getD i ErrT.zero = ErrT.zero := by
    intro i
    by_cases hi : i < es.length
    · rw [List.getD_eq_getElem es ErrT.zero hi]
      exact h _ (List.getElem_mem hi)
    · exact List.getD_eq_default es ErrT.zero (Nat.le_of_not_lt hi)
  rw [hz, hz]
  have hsd : ∀ k : Int, ErrT.scaleDiv k ErrT.zero = ErrT.zero := by
    intro k
    simp [ErrT.scaleDiv, ErrT.zero]
  split
  · rw [hsd, hsd, hsd]
    rfl
  · rw [hz, hsd, hsd, hsd]
    rfl

theorem belowErrs_length (es : List ErrT) :
    (belowErrs es).length = es.length := by
  simp [belowErrs]

theorem map_snd_pair_zero (row : List RGB) :
    (row.map (fun p => (p, ErrT.zero))).map Prod.snd =
      List.replicate row.length ErrT.zero := by
  induction row with
  | nil => rfl
  | cons q qs ihq => simpa [List.replicate_succ] using ihq

theorem map_fst_pair_zero (row : List RGB) :
    (row.map (fun p => (p, ErrT.zero))).map Prod.fst = row := by
  induction row with
  | nil => rfl
  | cons q qs ihq => simpa using ihq

theorem fsDither_id (L : Nat) : ∀ (img : List (List RGB)) (errs : List ErrT),
    (∀ row ∈ img, row.length = L) → errs.length = L →
    (∀ row ∈ img, ∀ p ∈ row, p ∈ palette7) →
    (∀ e ∈ errs, e = ErrT.zero) →
    fsDither fullPalette img errs = img := by
  intro img
  induction img with
  | nil => intro errs _ _ _ _; rfl
  | cons row rows ih =>
      intro errs hL heL hp hz
      rw [fsDither]
      have hrl : row.length = errs.length := by
        rw [hL row (List.mem_cons_self row rows), heL]
      rw [fsScan_id row errs (hp row (List.mem_cons_self row rows)) hz hrl]
      rw [map_snd_pair_zero, map_fst_pair_zero]
      rw [ih (belowErrs (List.replicate row.length ErrT.zero))
        (fun r hr => hL r (List.mem_cons_of_mem row hr))
        (by rw [belowErrs_length, List.length_replicate, hL row (List.mem_cons_self row rows)])
        (fun r hr => hp r (List.mem_cons_of_mem row hr))
        (belowErrs_zero _ (by simp [List.mem_replicate]))]

theorem process_cover_id (resample : PixelImg → Nat → PixelImg)
    (img : PixelImg) (hh : imgHeight img = 300)
    (hw : ∀ row ∈ img, row.length = 300)
    (hp : ∀ row ∈ img, ∀ p ∈ row, p ∈ palette7) :
    process_cover_for_eink resample img 300 = img := by
  have hwid : imgWidth img = 300 := by
    unfold imgWidth
    cases img with
    | nil => simp [imgHeight] at hh
    | cons r rs => exact hw r (List.mem_cons_self r rs)
  have hres : resizeModel resample img 300 = img := by
    unfold resizeModel
    exact if_pos ⟨hwid, hh⟩
  show fsDither fullPalette (resizeModel resample img 300)
    (List.replicate (imgWidth (resizeModel resample img 300)) ErrT.zero) = img
  rw [hres, hwid]
  exact fsDither_id 300 img _ hw (by rw [List.length_replicate]) hp
    (fun e he => List.eq_of_mem_replicate he)

theorem quantize_idempotent (resample : PixelImg → Nat → PixelImg)
    (img : PixelImg) (hh : imgHeight img = 300)
    (hw : ∀ row ∈ img, row.length = 300)
    (hp : ∀ row ∈ img, ∀ p ∈ row, p ∈ palette7) :
    process_cover_for_eink resample
        (process_cover_for_eink resample img 300) 300 =
      process_cover_for_eink resample img 300 := by
  rw [process_cover_id resample img hh hw hp,
    process_cover_id resample img hh hw hp]

theorem quantize_idempotent_witness :
    process_cover_for_eink cRes.resample
        (process_cover_for_eink cRes.resample imgBlack300 300) 300 =
      process_cover_for_eink cRes.resample imgBlack300 300 :=
  quantize_idempotent cRes.resample imgBlack300
    (by rw [imgBlack300]; exact List.length_replicate 300 _)
    (fun r hr => by rw [List.eq_of_mem_replicate hr, List.length_replicate])
    (fun r hr p hp2 => by
      rw [List.eq_of_mem_replicate hr] at hp2
      rw [List.eq_of_mem_replicate hp2]
      decide)

/-! ### The composed canvas: markers, track rows, placeholder, QR code -/

theorem isMarkerOp_text_black (x y : Int) (s : List Char) (sz : Nat) (b : Bool) :
    isMarkerOp (DrawOp.text x y s BLACK sz b) = false := rfl

theorem isMarkerOp_text_white (x y : Int) (s : List Char) (sz : Nat) (b : Bool) :
    isMarkerOp (DrawOp.text x y s WHITE sz b) = false := rfl

theorem isMarkerOp_text_orange (x y : Int) (s : List Char) (sz : Nat) (b : Bool) :
    isMarkerOp (DrawOp.text x y s ORANGE sz b) = true := rfl

/-- No op drawn before the track rows is a highlight marker (all header text
is black or white). -/
theorem isMarkerOp_header (R : Resources) (album : AlbumData) :
    ∀ op ∈ headerOps R album, isMarkerOp op = false := by
  intro op hop
  unfold headerOps at hop
  simp only [List.mem_append, List.mem_cons, List.not_mem_nil, or_false] at hop
  rcases hop with ((h | h | h | h | h | h | h) | hT) | (h | h | h)
  all_goals try (subst h; rfl)
  · unfold titleOps at hT
    obtain ⟨p, hp, rfl⟩ := List.mem_map.mp hT
    rfl

/-- No op drawn before the track rows is a track-row index (the only
14pt-bold text there, the date, is white). -/
theorem isTrackNumOp_header (R : Resources) (album : AlbumData) :
    ∀ op ∈ headerOps R album, isTrackNumOp op = false := by
  intro op hop
  unfold headerOps at hop
  simp only [List.mem_append, List.mem_cons, List.not_mem_nil, or_false] at hop
  rcases hop with ((h | h | h | h | h | h | h) | hT) | (h | h | h)
  all_goals try (subst h; rfl)
  · unfold titleOps at hT
    obtain ⟨p, hp, rfl⟩ := List.mem_map.mp hT
    rfl

/-- The QR ops contain no marker and no track index. -/
theorem isMarkerOp_qr (q : List Char → PixelImg) (album : AlbumData) :
    ∀ op ∈ qrOpsOf q album, isMarkerOp op = false := by
  intro op hop
  unfold qrOpsOf at hop
  split at hop
  · split at hop
    · simp at hop
    · rw [List.mem_singleton] at hop
      subst hop
      rfl
  · simp at hop

theorem isTrackNumOp_qr (q : List Char → PixelImg) (album : AlbumData) :
    ∀ op ∈ qrOpsOf q album, isTrackNumOp op = false := by
  intro op hop
  unfold qrOpsOf at hop
  split at hop
  · split at hop
    · simp at hop
    · rw [List.mem_singleton] at hop
      subst hop
      rfl
  · simp at hop

/-- The track loop draws exactly one marker per `in_playlist` track. -/
theorem trackRowOps_countP_marker (fT : Font) (xs maxTW : Int) :
    ∀ (l : List TrackData) (idx : Nat) (y : Int),
      (trackRowOps fT xs maxTW idx y l).countP isMarkerOp =
        l.countP (fun td => td.inPlaylist) := by
  intro l
  induction l with
  | nil => intro idx y; rfl
  | cons td rest ih =>
      intro idx y
      rw [trackRowOps]
      rw [List.countP_append, List.countP_append, ih (idx + 1) (y + 25)]
      rw [List.countP_cons_of_neg _ _ (by rw [isMarkerOp_text_black]; simp),
        List.countP_cons_of_neg _ _ (by rw [isMarkerOp_text_black]; simp),
        List.countP_nil]
      cases hpl : td.inPlaylist
      · rw [if_neg (by simp), List.countP_nil,
          List.countP_cons_of_neg _ _ (by simp [hpl])]
        omega
      · rw [if_pos rfl,
          List.countP_cons_of_pos _ _ (isMarkerOp_text_orange _ _ _ _ _),
          List.countP_nil,
          List.countP_cons_of_pos _ _ (by simp [hpl])]
        omega


/-- Every marker op drawn by the track loop belongs to an `in_playlist`
track at position `i`, sits at that row's `y - 2`, and its x-coordinate is
the measured end of the name fitted to the reduced budget, plus 8. -/
theorem trackRowOps_marker_mem (fT : Font) (xs maxTW : Int) :
    ∀ (l : List TrackData) (idx : Nat) (y : Int) (op : DrawOp),
      op ∈ trackRowOps fT xs maxTW idx y l → isMarkerOp op = true →
      ∃ (i : Nat) (td : TrackData), l[i]? = some td ∧ td.inPlaylist = true ∧
        op = DrawOp.text
          (xs + 34 + (fT (truncate_text fT (maxTW - 25) td.name)).x1 + 8)
          (y + 25 * (i : Int) - 2) ['*'] ORANGE 18 true := by
  intro l
  induction l with
  | nil =>
      intro idx y op hop
      rw [trackRowOps] at hop
      simp at hop
  | cons td rest ih =>
      intro idx y op hop hm
      rw [trackRowOps] at hop
      rcases List.mem_append.mp hop with hrow | hrec
      · rcases List.mem_append.mp hrow with hpair | hmark
        · rcases List.mem_cons.mp hpair with h1 | h1
          · rw [h1, isMarkerOp_text_black] at hm
            exact absurd hm (by simp)
          · rcases List.mem_cons.mp h1 with h2 | h2
            · rw [h2, isMarkerOp_text_black] at hm
              exact absurd hm (by simp)
            · simp at h2
        · cases hpl : td.inPlaylist
          · rw [hpl] at hmark
            simp at hmark
          · rw [hpl] at hmark
            rw [if_pos rfl, List.mem_singleton] at hmark
            refine ⟨0, td, List.getElem?_cons_zero, hpl, ?_⟩
            rw [hmark]
            norm_num
      · obtain ⟨i, td2, hget, hpl2, hop2⟩ := ih (idx + 1) (y + 25) op hrec hm
        refine ⟨i + 1, td2, by rw [List.getElem?_cons_succ]; exact hget, hpl2, ?_⟩
        rw [hop2]
        have hy : y + 25 + 25 * (i : Int) - 2 = y + 25 * ((i + 1 : Nat) : Int) - 2 := by
          push_cast
          ring
        rw [hy]

/-- The track loop draws, for any non-highlighted track at position `i`, its
name fitted to the full row budget at `(x_start + 34, y + 25 i)`. -/
theorem trackRowOps_name_mem (fT : Font) (xs maxTW : Int) :
    ∀ (l : List TrackData) (idx : Nat) (y : Int) (i : Nat) (td : TrackData),
      l[i]? = some td → td.inPlaylist = false →
      DrawOp.text (xs + 34) (y + 25 * (i : Int))
          (truncate_text fT maxTW td.name) BLACK 14 false ∈
        trackRowOps fT xs maxTW idx y l := by
  intro l
  induction l with
  | nil =>
      intro idx y i td h
      simp at h
  | cons td0 rest ih =>
      intro idx y i td hget hpl
      rw [trackRowOps]
      cases i with
      | zero =>
          have h0 : td0 = td := by simpa using hget
          subst h0
          refine List.mem_append.mpr (Or.inl (List.mem_append.mpr (Or.inl ?_)))
          rw [hpl, if_neg (by simp)]
          simp
      | succ i2 =>
          have hget2 : rest[i2]? = some td := by
            rw [List.getElem?_cons_succ] at hget
            exact hget
          refine List.mem_append.mpr (Or.inr ?_)
          have hy : y + 25 * ((i2 + 1 : Nat) : Int) = (y + 25) + 25 * (i2 : Int) := by
            push_cast
            ring
          rw [hy]
          exact ih (idx + 1) (y + 25) i2 td hget2 hpl


/-- The QR paste position is never drawn by the header. -/
theorem qr_paste_not_in_header (R : Resources) (album : AlbumData)
    (img : PixelImg) :
    DrawOp.paste (WIDTH - 135) (HEIGHT - 140) img ∉ headerOps R album := by
  intro h
  unfold headerOps at h
  simp only [List.mem_append, List.mem_cons, List.not_mem_nil, or_false] at h
  rcases h with ((h | h | h | h | h | h | h) | hT) | (h | h | h)
  all_goals try simp [WIDTH, HEIGHT] at h
  · unfold titleOps at hT
    obtain ⟨p, hp, he⟩ := List.mem_map.mp hT
    simp at he

/-- C4 counterexample: with two `in_playlist` tracks among the first 5, a
marker glyph does appear on the canvas although the number of highlighted
entries is 2, not exactly 1 — refuting the claimed "if and only if exactly
one". -/
theorem marker_iff_counterexample :
    ¬ ((∃ op ∈ (create_album_display cRes albumTwoHighlighted).ops,
          isMarkerOp op = true) ↔
        (albumTwoHighlighted.tracks.take 5).countP
          (fun td => td.inPlaylist) = 1) := by
  decide

/-- C4 as amended: the canvas carries exactly one marker glyph per
`in_playlist` track among the first 5 (so a marker appears iff at least
one such track exists), and every marker sits at its row's
`y - 2`, horizontally at the measured end of the name fitted to the
budget reduced by the reserved 25px, plus 8 — never at a fixed offset. -/
theorem marker_count_and_position (R : Resources) (album : AlbumData) :
    (create_album_display R album).ops.countP isMarkerOp =
        (album.tracks.take 5).countP (fun td => td.inPlaylist) ∧
      ∀ op ∈ (create_album_display R album).ops, isMarkerOp op = true →
        ∃ (i : Nat) (td : TrackData), (album.tracks.take 5)[i]? = some td ∧
          td.inPlaylist = true ∧
          op = DrawOp.text
            (xStart + 34 + (R.fonts 14 false (truncate_text (R.fonts 14 false)
              (maxTrackWidth - 25) td.name)).x1 + 8)
            (trackStartY R.fonts album + 25 * (i : Int) - 2) ['*']
            ORANGE 18 true := by
  constructor
  · show (canvasOps R album).countP isMarkerOp = _
    unfold canvasOps
    rw [List.countP_append, List.countP_append]
    have hH : (headerOps R album).countP isMarkerOp = 0 :=
      List.countP_eq_zero.mpr (fun op hop => by
        rw [isMarkerOp_header R album op hop]; simp)
    have hQ : (qrOpsOf R.qrGen album).countP isMarkerOp = 0 :=
      List.countP_eq_zero.mpr (fun op hop => by
        rw [isMarkerOp_qr R.qrGen album op hop]; simp)
    rw [hH, hQ, trackRowOps_countP_marker]
    omega
  · intro op hop hm
    have hops : op ∈ headerOps R album ∨
        op ∈ trackRowOps (R.fonts 14 false) xStart maxTrackWidth 1
          (trackStartY R.fonts album) (album.tracks.take 5) ∨
        op ∈ qrOpsOf R.qrGen album := by
      have hc : op ∈ canvasOps R album := hop
      unfold canvasOps at hc
      rcases List.mem_append.mp hc with h1 | hq
      · rcases List.mem_append.mp h1 with h2 | h3
        · exact Or.inl h2
        · exact Or.inr (Or.inl h3)
      · exact Or.inr (Or.inr hq)
    rcases hops with h | h | h
    · rw [isMarkerOp_header R album op h] at hm
      exact absurd hm (by simp)
    · exact trackRowOps_marker_mem _ _ _ _ _ _ op h hm
    · rw [isMarkerOp_qr R.qrGen album op h] at hm
      exact absurd hm (by simp)

/-- Witness for C4's amended statement: one highlighted track, one marker,
at the computed position. -/
theorem marker_count_and_position_witness :
    (create_album_display cRes albumOneHighlighted).ops.countP isMarkerOp = 1 ∧
      ∃ (i : Nat) (td : TrackData),
        (albumOneHighlighted.tracks.take 5)[i]? = some td ∧
        td.inPlaylist = true ∧
        DrawOp.text 447 214 ['*'] ORANGE 18 true = DrawOp.text
          (xStart + 34 + (cRes.fonts 14 false (truncate_text (cRes.fonts 14 false)
            (maxTrackWidth - 25) td.name)).x1 + 8)
          (trackStartY cRes.fonts albumOneHighlighted + 25 * (i : Int) - 2) ['*']
          ORANGE 18 true :=
  ⟨((marker_count_and_position cRes albumOneHighlighted).1).trans (by decide),
   (marker_count_and_position cRes albumOneHighlighted).2
     (DrawOp.text 447 214 ['*'] ORANGE 18 true) (by decide) (by decide)⟩

/-- The track loop only draws text, never pastes an image. -/
theorem paste_not_in_trackRowOps (fT : Font) (xs maxTW : Int) :
    ∀ (l : List TrackData) (idx : Nat) (y : Int) (x2 y2 : Int)
      (img : PixelImg),
      DrawOp.paste x2 y2 img ∉ trackRowOps fT xs maxTW idx y l := by
  intro l
  induction l with
  | nil =>
      intro idx y x2 y2 img h
      simp [trackRowOps] at h
  | cons td rest ih =>
      intro idx y x2 y2 img h
      rw [trackRowOps] at h
      rcases List.mem_append.mp h with h1 | h2
      · rcases List.mem_append.mp h1 with hp | hm
        · simp at hp
        · split at hm
          · simp at hm
          · simp at hm
      · exact ih _ _ _ _ _ h2

/-- C6: composition always completes as a full 800×480 canvas, and for any
subset of the optional fields absent: a missing or undecodable cover is
replaced by the placeholder block; an empty track list yields zero track
rows; an absent link URL leaves the code region blank (nothing pasted at
the QR position). -/
theorem missing_optional_fields (R : Resources) (album : AlbumData) :
    (create_album_display R album).width = 800 ∧
    (create_album_display R album).height = 480 ∧
    (coverFetched R.fetch album = none →
      DrawOp.paste 30 90 (placeholderCover R.fonts R.rasterize) ∈
        (create_album_display R album).ops) ∧
    (album.tracks = [] →
      (create_album_display R album).ops.countP isTrackNumOp = 0) ∧
    (album.spotify_url = none →
      ∀ img : PixelImg,
        DrawOp.paste (WIDTH - 135) (HEIGHT - 140) img ∉
          (create_album_display R album).ops) := by
  refine ⟨rfl, rfl, ?_, ?_, ?_⟩
  · intro hc
    show DrawOp.paste 30 90 _ ∈ canvasOps R album
    unfold canvasOps
    refine List.mem_append.mpr (Or.inl (List.mem_append.mpr (Or.inl ?_)))
    unfold headerOps
    rw [hc]
    simp
  · intro ht
    show (canvasOps R album).countP isTrackNumOp = 0
    unfold canvasOps
    rw [ht, List.countP_append, List.countP_append]
    have hH : (headerOps R album).countP isTrackNumOp = 0 :=
      List.countP_eq_zero.mpr (fun op hop => by
        rw [isTrackNumOp_header R album op hop]; simp)
    have hQ : (qrOpsOf R.qrGen album).countP isTrackNumOp = 0 :=
      List.countP_eq_zero.mpr (fun op hop => by
        rw [isTrackNumOp_qr R.qrGen album op hop]; simp)
    rw [hH, hQ]
    norm_num [trackRowOps]
  · intro hu img hmem
    have hc2 : DrawOp.paste (WIDTH - 135) (HEIGHT - 140) img ∈
        canvasOps R album := hmem
    unfold canvasOps at hc2
    rcases List.mem_append.mp hc2 with h1 | hq
    · rcases List.mem_append.mp h1 with h2 | h3
      · exact qr_paste_not_in_header R album img h2
      · exact paste_not_in_trackRowOps _ _ _ _ _ _ _ _ _ h3
    · unfold qrOpsOf at hq
      rw [hu] at hq
      simp at hq

/-- Witness for C6 at the album with every optional field absent. -/
theorem missing_optional_fields_witness :
    (create_album_display cRes albumEmpty).width = 800 ∧
    (create_album_display cRes albumEmpty).height = 480 ∧
    DrawOp.paste 30 90 (placeholderCover cRes.fonts cRes.rasterize) ∈
      (create_album_display cRes albumEmpty).ops ∧
    (create_album_display cRes albumEmpty).ops.countP isTrackNumOp = 0 ∧
    DrawOp.paste (WIDTH - 135) (HEIGHT - 140) ([] : PixelImg) ∉
      (create_album_display cRes albumEmpty).ops :=
  ⟨(missing_optional_fields cRes albumEmpty).1,
   (missing_optional_fields cRes albumEmpty).2.1,
   (missing_optional_fields cRes albumEmpty).2.2.1 rfl,
   (missing_optional_fields cRes albumEmpty).2.2.2.1 rfl,
   (missing_optional_fields cRes albumEmpty).2.2.2.2 rfl []⟩

/-- C9: a bare-string track entry is accepted and rendered as a
non-highlighted row: its name is fitted to the full row budget (no 25px
reduction) and drawn at the row position, and no marker glyph is drawn on
that row's marker line. -/
theorem plain_track_row (R : Resources) (album : AlbumData) (i : Nat)
    (s : List Char)
    (h : (album.tracks.take 5)[i]? = some (TrackData.plain s)) :
    DrawOp.text (xStart + 34) (trackStartY R.fonts album + 25 * (i : Int))
        (truncate_text (R.fonts 14 false) maxTrackWidth s) BLACK 14 false ∈
      (create_album_display R album).ops ∧
    ∀ (x : Int) (cs : List Char) (sz : Nat) (b : Bool),
      DrawOp.text x (trackStartY R.fonts album + 25 * (i : Int) - 2) cs
          ORANGE sz b ∉
        (create_album_display R album).ops := by
  constructor
  · show _ ∈ canvasOps R album
    unfold canvasOps
    refine List.mem_append.mpr (Or.inl (List.mem_append.mpr (Or.inr ?_)))
    exact trackRowOps_name_mem (R.fonts 14 false) xStart maxTrackWidth
      (album.tracks.take 5) 1 (trackStartY R.fonts album) i
      (TrackData.plain s) h rfl
  · intro x cs sz b hmem
    have hm : isMarkerOp (DrawOp.text x
        (trackStartY R.fonts album + 25 * (i : Int) - 2) cs ORANGE sz b) =
          true := rfl
    have hc2 : DrawOp.text x (trackStartY R.fonts album + 25 * (i : Int) - 2)
        cs ORANGE sz b ∈ canvasOps R album := hmem
    unfold canvasOps at hc2
    rcases List.mem_append.mp hc2 with h1 | hq
    · rcases List.mem_append.mp h1 with h2 | h3
      · rw [isMarkerOp_header R album _ h2] at hm
        exact absurd hm (by simp)
      · obtain ⟨j, td, hget, hpl, hform⟩ :=
          trackRowOps_marker_mem _ _ _ _ _ _ _ h3 hm
        injection hform with e1 e2 e3 e4 e5 e6
        have hij : i = j := by omega
        subst hij
        rw [h] at hget
        injection hget with htd
        rw [← htd] at hpl
        exact absurd hpl (by simp [TrackData.inPlaylist])
    · rw [isMarkerOp_qr R.qrGen album _ hq] at hm
      exact absurd hm (by simp)

/-- Witness for C9 at a concrete album whose only track is the bare string
`'x'`. -/
theorem plain_track_row_witness :
    DrawOp.text (xStart + 34)
        (trackStartY cRes.fonts albumPlainTrack + 25 * ((0 : Nat) : Int))
        (truncate_text (cRes.fonts 14 false) maxTrackWidth ['x'])
        BLACK 14 false ∈
      (create_album_display cRes albumPlainTrack).ops ∧
    DrawOp.text 447
        (trackStartY cRes.fonts albumPlainTrack + 25 * ((0 : Nat) : Int) - 2)
        ['*'] ORANGE 18 true ∉
      (create_album_display cRes albumPlainTrack).ops :=
  ⟨(plain_track_row cRes albumPlainTrack 0 ['x'] (by decide)).1,
   (plain_track_row cRes albumPlainTrack 0 ['x'] (by decide)).2 447 ['*'] 18 true⟩

end AlbumDuJour
